import Mathlib

/-
Verification of the TTML lyrics parser and timeline interaction engine
(Timeline component).

The source is a TypeScript/React module.  We embed it shallowly:

* JavaScript numbers are modelled exactly: `JsNum` is a rational number,
  NaN, or a signed infinity.  The number-valued string parsers
  (`parseInt`, `parseFloat`) and `Math.round` are embedded over that
  type.  The concrete values appearing in the claims are all dyadic
  rationals that IEEE doubles represent exactly, so the rational model
  agrees with the JavaScript evaluation on them.
* The DOM tree produced by `DOMParser.parseFromString` is modelled as a
  rose tree `XmlNode`; the outcome of the front-end parse is an
  `Option XmlNode` (`none` = structural parse failure, i.e. the branch
  that the source's try/catch turns into an empty result).
* The parser (`parseTTML`) and the interaction-engine handlers
  (`handleTimelineClick`, `handleWheel`, `handleMouseDown`,
  `timeMarkers`) are translated function by function; React state
  updates become an explicit `EngineState` record, and the engine's
  numeric line view (it only reads `begin`/`end`) is the record
  `TimelineLine` with exact rational times.
-/

set_option maxRecDepth 8000

/-- Model of a JavaScript number: NaN, a signed infinity, or an exact
rational value. -/
inductive JsNum where
  | nan : JsNum
  | inf : Bool → JsNum        -- `inf true` is -Infinity, `inf false` is +Infinity
  | num : ℚ → JsNum
deriving DecidableEq, Repr

namespace JsNum

/-- JavaScript addition on numbers (NaN propagates; opposite infinities
give NaN). -/
def add : JsNum → JsNum → JsNum
  | nan, _ => nan
  | _, nan => nan
  | inf s, inf t => if s = t then inf s else nan
  | inf s, num _ => inf s
  | num _, inf t => inf t
  | num a, num b => num (a + b)

/-- JavaScript multiplication on numbers (NaN propagates; infinity times
zero is NaN). -/
def mul : JsNum → JsNum → JsNum
  | nan, _ => nan
  | _, nan => nan
  | inf s, inf t => inf (s != t)
  | inf s, num q => if q = 0 then nan else inf (s != decide (q < 0))
  | num q, inf t => if q = 0 then nan else inf (t != decide (q < 0))
  | num a, num b => num (a * b)

/-- `Math.round`: round half toward positive infinity; NaN and
infinities pass through. -/
def round : JsNum → JsNum
  | nan => nan
  | inf s => inf s
  | num q => num (⌊q + 1/2⌋ : ℤ)

end JsNum

/-- The whitespace characters skipped by the JavaScript numeric string
parsers (ASCII portion of StrWhiteSpace). -/
def isJsSpace (c : Char) : Bool :=
  c = ' ' || c = '\t' || c = '\n' || c = '\r' || c = '\x0b' || c = '\x0c'

/-- Numeric value of a list of decimal digit characters. -/
def digitsVal (l : List Char) : ℕ :=
  l.foldl (fun a c => 10 * a + (c.toNat - 48)) 0

/-- Numeric value of a list of hexadecimal digit characters. -/
def hexDigitsVal (l : List Char) : ℕ :=
  l.foldl (fun a c =>
    16 * a +
      (if c.isDigit then c.toNat - 48
       else if 'a' ≤ c ∧ c ≤ 'f' then c.toNat - 87
       else c.toNat - 55)) 0

def isHexDigit (c : Char) : Bool :=
  c.isDigit || ('a' ≤ c && c ≤ 'f') || ('A' ≤ c && c ≤ 'F')

/-- The optional exponent suffix of a decimal literal: `e`/`E`, an
optional sign and at least one digit; anything else contributes
exponent 0 (JavaScript ignores a trailing invalid exponent part). -/
def parseExpSuffix (l : List Char) : ℤ :=
  let signedDigits : List Char → ℤ := fun r =>
    match r with
    | '+' :: d => if d.takeWhile Char.isDigit = [] then 0 else (digitsVal (d.takeWhile Char.isDigit) : ℤ)
    | '-' :: d => if d.takeWhile Char.isDigit = [] then 0 else -(digitsVal (d.takeWhile Char.isDigit) : ℤ)
    | d => if d.takeWhile Char.isDigit = [] then 0 else (digitsVal (d.takeWhile Char.isDigit) : ℤ)
  match l with
  | 'e' :: r => signedDigits r
  | 'E' :: r => signedDigits r
  | _ => 0

/-- Split a character list on a separator character, like the JavaScript
`String.prototype.split` with a one-character separator: `"a::b"` gives
`["a", "", "b"]` and the empty string gives `[""]`. -/
def splitOnChar (sep : Char) : List Char → List (List Char)
  | [] => [[]]
  | c :: rest =>
    if c = sep then [] :: splitOnChar sep rest
    else
      match splitOnChar sep rest with
      | [] => [[c]]
      | p :: ps => (c :: p) :: ps

/-- JavaScript `parseFloat`: skip whitespace, optional sign, then the
longest prefix that is `Infinity` or a decimal literal with optional
fraction and exponent; NaN when no digits are found. -/
def jsParseFloat (s : String) : JsNum :=
  let l := s.toList.dropWhile isJsSpace
  let (neg, l) :=
    match l with
    | '+' :: r => (false, r)
    | '-' :: r => (true, r)
    | _ => (false, l)
  if l.take 8 = "Infinity".toList then JsNum.inf neg
  else
    let intD := l.takeWhile Char.isDigit
    let rest := l.drop intD.length
    let (fracD, rest2) :=
      match rest with
      | '.' :: r => (r.takeWhile Char.isDigit, r.dropWhile Char.isDigit)
      | _ => ([], rest)
    if intD = [] ∧ fracD = [] then JsNum.nan
    else
      let mag : ℚ :=
        ((digitsVal intD : ℚ) + (digitsVal fracD : ℚ) / 10 ^ fracD.length) *
          10 ^ (parseExpSuffix rest2)
      JsNum.num (if neg then -mag else mag)

/-- JavaScript `parseInt` with no radix argument: skip whitespace,
optional sign, a `0x`/`0X` prefix selects base 16, otherwise the longest
prefix of decimal digits; NaN when no digits are found. -/
def jsParseInt (s : String) : JsNum :=
  let l := s.toList.dropWhile isJsSpace
  let (neg, l) :=
    match l with
    | '+' :: r => (false, r)
    | '-' :: r => (true, r)
    | _ => (false, l)
  match l with
  | '0' :: 'x' :: r =>
      let d := r.takeWhile isHexDigit
      if d = [] then JsNum.nan
      else JsNum.num (if neg then -(hexDigitsVal d : ℚ) else (hexDigitsVal d : ℚ))
  | '0' :: 'X' :: r =>
      let d := r.takeWhile isHexDigit
      if d = [] then JsNum.nan
      else JsNum.num (if neg then -(hexDigitsVal d : ℚ) else (hexDigitsVal d : ℚ))
  | _ =>
      let d := l.takeWhile Char.isDigit
      if d = [] then JsNum.nan
      else JsNum.num (if neg then -(digitsVal d : ℚ) else (digitsVal d : ℚ))

/-- `parseTime` from the source: split on `:`; three parts are
`h:m:s`, two parts are `m:s` (`s` possibly fractional), otherwise the
first part is parsed as a fractional seconds value; the seconds value is
scaled to milliseconds and rounded. The empty string returns 0. -/
def parseTime (timeStr : String) : JsNum :=
  if timeStr = "" then JsNum.num 0
  else
    let parts : List String := (splitOnChar ':' timeStr.toList).map List.asString
    let seconds : JsNum :=
      if parts.length = 3 then
        JsNum.add
          (JsNum.add (JsNum.mul (jsParseInt (parts.getD 0 "")) (JsNum.num 3600))
            (JsNum.mul (jsParseInt (parts.getD 1 "")) (JsNum.num 60)))
          (jsParseFloat (parts.getD 2 ""))
      else if parts.length = 2 then
        JsNum.add (JsNum.mul (jsParseInt (parts.getD 0 "")) (JsNum.num 60))
          (jsParseFloat (parts.getD 1 ""))
      else
        jsParseFloat (parts.getD 0 "")
    JsNum.round (JsNum.mul seconds (JsNum.num 1000))

/-- The time-parsing rule as the specification words it: empty input is
0; otherwise split on `:`; three parts are `h*3600 + m*60 + s` seconds,
two parts `m*60 + s` seconds, one part a possibly-fractional seconds
value; convert to milliseconds and round. -/
def parseTimeRule (timeStr : String) : JsNum :=
  if timeStr = "" then JsNum.num 0
  else
    match (splitOnChar ':' timeStr.toList).map List.asString with
    | [h, m, s] =>
        JsNum.round (JsNum.mul
          (JsNum.add (JsNum.add (JsNum.mul (jsParseInt h) (JsNum.num 3600))
            (JsNum.mul (jsParseInt m) (JsNum.num 60))) (jsParseFloat s))
          (JsNum.num 1000))
    | [m, s] =>
        JsNum.round (JsNum.mul
          (JsNum.add (JsNum.mul (jsParseInt m) (JsNum.num 60)) (jsParseFloat s))
          (JsNum.num 1000))
    | parts =>
        JsNum.round (JsNum.mul (jsParseFloat (parts.getD 0 "")) (JsNum.num 1000))

/-
DOM model.  `DOMParser.parseFromString` is an external browser API; its
outcome is modelled as `Option XmlNode` (`none` stands for a structural
parse failure, the case the source's try/catch converts into `[]`).
Elements carry a tag, an attribute list and ordered child nodes.
-/

/-- A DOM node: a text run or an element with tag, attributes and
ordered children. -/
inductive XmlNode where
  | textNode : String → XmlNode
  | elem : String → List (String × String) → List XmlNode → XmlNode
deriving Repr

/-- `Element.getAttribute` (first matching attribute; `none` for a text
node or an absent attribute). -/
def getAttribute (n : XmlNode) (name : String) : Option String :=
  match n with
  | .textNode _ => none
  | .elem _ attrs _ => (attrs.find? (fun a => decide (a.1 = name))).map (fun a => a.2)

/-- The source reads several attributes as `getAttribute(x) || undefined`:
`null` and the empty string are both falsy and become `undefined`. -/
def jsAttrOpt (n : XmlNode) (name : String) : Option String :=
  match getAttribute n name with
  | none => none
  | some s => if s = "" then none else some s

/-- The child list of a node (empty for a text node). -/
def childrenOf : XmlNode → List XmlNode
  | .textNode _ => []
  | .elem _ _ ch => ch

/-- `Node.textContent`: concatenation of all descendant text runs in
document order. -/
def textContent : XmlNode → String
  | .textNode s => s
  | .elem _ _ ch => textContentL ch
where
  /-- `textContent` of a forest. -/
  textContentL : List XmlNode → String
  | [] => ""
  | n :: rest => textContent n ++ textContentL rest

/-- Does this node match the `span[begin]` selector? -/
def isTimedSpan (n : XmlNode) : Bool :=
  match n with
  | .elem tag _ _ => decide (tag = "span") && (getAttribute n "begin").isSome
  | .textNode _ => false

/-- `querySelectorAll(tag)` over a forest: all elements with the given
tag, in document order (an element precedes its descendants). -/
def elemsByTag (t : String) : List XmlNode → List XmlNode
  | [] => []
  | XmlNode.textNode _ :: rest => elemsByTag t rest
  | XmlNode.elem tag attrs ch :: rest =>
      (if tag = t then [XmlNode.elem tag attrs ch] else []) ++
        elemsByTag t ch ++ elemsByTag t rest

/-- `doc.querySelectorAll("p")`. -/
def collectPs (doc : XmlNode) : List XmlNode := elemsByTag "p" [doc]

/-- `querySelectorAll("span[begin]")` over a forest: every timed span in
document order. -/
def timedSpans : List XmlNode → List XmlNode
  | [] => []
  | XmlNode.textNode _ :: rest => timedSpans rest
  | XmlNode.elem tag attrs ch :: rest =>
      (if isTimedSpan (XmlNode.elem tag attrs ch) then [XmlNode.elem tag attrs ch] else []) ++
        timedSpans ch ++ timedSpans rest

/-- `doc.querySelectorAll("transliteration text")` over a forest:
elements with tag `text` having a strict ancestor with tag
`transliteration`; `inTrans` records whether such an ancestor is already
above the forest. -/
def collectTransTexts (inTrans : Bool) : List XmlNode → List XmlNode
  | [] => []
  | XmlNode.textNode _ :: rest => collectTransTexts inTrans rest
  | XmlNode.elem tag attrs ch :: rest =>
      (if inTrans && decide (tag = "text") then [XmlNode.elem tag attrs ch] else []) ++
        collectTransTexts (inTrans || decide (tag = "transliteration")) ch ++
        collectTransTexts inTrans rest

/-- A parsed word (`ParsedWord` in the source); `isBackground = false`
models the absent/`undefined` flag. -/
structure ParsedWord where
  begin : JsNum
  «end» : JsNum
  text : String
  isBackground : Bool
deriving DecidableEq, Repr

/-- A transliteration entry `{ text, words }`. -/
structure TransEntry where
  text : String
  words : List ParsedWord
deriving DecidableEq, Repr

/-- A parsed line (`ParsedLine` in the source). -/
structure ParsedLine where
  begin : JsNum
  «end» : JsNum
  text : String
  leadText : String
  bgText : String
  words : List ParsedWord
  agent : Option String
  key : Option String
  transliteration : Option TransEntry
deriving DecidableEq, Repr

/-- The upward walk from a word span: `parent = span.parentElement;
while (parent && parent !== p) { if bg-marked, stop true; climb }`.
The list holds the ancestors strictly between the span and the
paragraph, innermost first. -/
def ancestorHasBg : List XmlNode → Bool
  | [] => false
  | e :: rest =>
      if getAttribute e "ttm:role" = some "x-bg" then true else ancestorHasBg rest

/-- The word record pushed for one timed span, given the ancestors
strictly between it and the paragraph (innermost first). -/
def mkWord (anc : List XmlNode) (e : XmlNode) : ParsedWord :=
  { begin := parseTime ((getAttribute e "begin").getD "")
    «end» := parseTime ((getAttribute e "end").getD "")
    text := textContent e
    isBackground := ancestorHasBg anc }

/-- The per-paragraph word pass: every timed span strict descendant, in
document order, with `isBackground` recomputed from its own ancestor
chain (`anc` holds the ancestors above the current forest, innermost
first, up to but excluding the paragraph). -/
def wordsIn (anc : List XmlNode) : List XmlNode → List ParsedWord
  | [] => []
  | XmlNode.textNode _ :: rest => wordsIn anc rest
  | XmlNode.elem tag attrs ch :: rest =>
      (if isTimedSpan (XmlNode.elem tag attrs ch) then
        [mkWord anc (XmlNode.elem tag attrs ch)] else []) ++
        wordsIn (XmlNode.elem tag attrs ch :: anc) ch ++ wordsIn anc rest

/-- The recursive `collectText` walk: classify every text run as lead or
background depending on whether an element at or above it (below the
paragraph) carries `ttm:role="x-bg"`; returns (leadText, bgText),
each the concatenation of its runs in document order, untrimmed. -/
def collectTexts (inBackground : Bool) : List XmlNode → String × String
  | [] => ("", "")
  | XmlNode.textNode s :: rest =>
      let lb := collectTexts inBackground rest
      if inBackground then (lb.1, s ++ lb.2) else (s ++ lb.1, lb.2)
  | XmlNode.elem tag attrs ch :: rest =>
      let flag := inBackground ||
        decide (getAttribute (XmlNode.elem tag attrs ch) "ttm:role" = some "x-bg")
      let lb1 := collectTexts flag ch
      let lb2 := collectTexts inBackground rest
      (lb1.1 ++ lb2.1, lb1.2 ++ lb2.2)

/-- `Map.prototype.set`: replace the entry for the key, else append. -/
def jsMapSet (m : List (String × TransEntry)) (k : String) (v : TransEntry) :
    List (String × TransEntry) :=
  if m.any (fun a => decide (a.1 = k)) then
    m.map (fun a => if a.1 = k then (k, v) else a)
  else m ++ [(k, v)]

/-- `Map.prototype.get`. -/
def jsMapGet (m : List (String × TransEntry)) (k : String) : Option TransEntry :=
  (m.find? (fun a => decide (a.1 = k))).map (fun a => a.2)

/-- The words of one transliteration container: its timed spans, with no
background flag. -/
def transWords (textEl : XmlNode) : List ParsedWord :=
  (timedSpans (childrenOf textEl)).map (fun s =>
    { begin := parseTime ((getAttribute s "begin").getD "")
      «end» := parseTime ((getAttribute s "end").getD "")
      text := textContent s
      isBackground := false })

/-- The transliteration pass: scan the whole document for
`transliteration text` containers and key each `{text, words}` by its
`for` attribute (falsy `for` values are skipped). -/
def buildTransMap (doc : XmlNode) : List (String × TransEntry) :=
  (collectTransTexts false [doc]).foldl
    (fun m textEl =>
      match getAttribute textEl "for" with
      | none => m
      | some k => if k = "" then m else jsMapSet m k ⟨textContent textEl, transWords textEl⟩)
    []

/-- Assembly of one `ParsedLine` from a paragraph element and the
completed transliteration table. -/
def mkLine (tMap : List (String × TransEntry)) (p : XmlNode) : ParsedLine :=
  let key := jsAttrOpt p "itunes:key"
  let texts := collectTexts false (childrenOf p)
  { begin := parseTime ((getAttribute p "begin").getD "")
    «end» := parseTime ((getAttribute p "end").getD "")
    text := textContent p
    leadText := texts.1.trim
    bgText := texts.2.trim
    words := wordsIn [] (childrenOf p)
    agent := jsAttrOpt p "ttm:agent"
    key := key
    transliteration := key.bind (fun k => jsMapGet tMap k) }

/-- `parseTTML`: a failed front-end parse (the catch branch) yields `[]`;
otherwise build the transliteration table from the whole document, then
map line assembly over the paragraph elements in document order. -/
def parseTTML (parseResult : Option XmlNode) : List ParsedLine :=
  match parseResult with
  | none => []
  | some doc => (collectPs doc).map (mkLine (buildTransMap doc))

/-
Positional addressing of nodes, used to state the per-word
background-flag claims: a path of child indices from a paragraph down to
a word span, and the elements strictly between the two.
-/

/-- The i-th child node. -/
def childAt (n : XmlNode) (i : ℕ) : Option XmlNode := (childrenOf n)[i]?

/-- The node reached from `n` by following a path of child indices. -/
def nodeAt : XmlNode → List ℕ → Option XmlNode
  | n, [] => some n
  | n, i :: is =>
      match childAt n i with
      | some c => nodeAt c is
      | none => none

/-- The nodes strictly between `n` and the node at the path (both
endpoints excluded), listed top-down. -/
def chainAt : XmlNode → List ℕ → List XmlNode
  | _, [] => []
  | _, [_] => []
  | n, i :: j :: is =>
      match childAt n i with
      | some c => c :: chainAt c (j :: is)
      | none => []

/-- Demonstration transliteration container (`for="L1"`). -/
def transDemoT : XmlNode :=
  XmlNode.elem "transliteration" [] [XmlNode.elem "text" [("for", "L1")] [XmlNode.textNode "ho-la"]]

/-- Demonstration paragraph keyed `L1`. -/
def transDemoP : XmlNode :=
  XmlNode.elem "p" [("itunes:key", "L1"), ("begin", "1"), ("end", "2")] [XmlNode.textNode "hola"]

/-- Container before the line. -/
def transDemoDoc1 : XmlNode := XmlNode.elem "tt" [] [transDemoT, transDemoP]

/-- Container after the line. -/
def transDemoDoc2 : XmlNode := XmlNode.elem "tt" [] [transDemoP, transDemoT]

/-- A document whose paragraph carries an unparseable `begin` value. -/
def invalidTimeDoc : XmlNode :=
  XmlNode.elem "tt" [] [XmlNode.elem "p" [("begin", "abc")] []]

/-- Demonstration word span nested under a background container. -/
def bgDemoSpan : XmlNode :=
  XmlNode.elem "span" [("begin", "1"), ("end", "2")] [XmlNode.textNode "Ooh"]

/-- Demonstration paragraph: one span under an `x-bg` container and one
plain sibling span. -/
def bgDemoP : XmlNode :=
  XmlNode.elem "p" [("begin", "0"), ("end", "2")]
    [XmlNode.elem "span" [("ttm:role", "x-bg")] [bgDemoSpan],
     XmlNode.elem "span" [("begin", "0"), ("end", "1")] [XmlNode.textNode "Hey"]]

/-- Demonstration document for the background-flag claims. -/
def bgDemoDoc : XmlNode := XmlNode.elem "tt" [] [bgDemoP]

/-- Demonstration span that carries the marker itself. -/
def selfBgSpan : XmlNode :=
  XmlNode.elem "span" [("begin", "1"), ("ttm:role", "x-bg")] [XmlNode.textNode "La"]

/-- Paragraph whose only word span carries the marker directly. -/
def selfBgP : XmlNode := XmlNode.elem "p" [] [selfBgSpan]

/-- Document for the self-marked-span claim. -/
def selfBgDoc : XmlNode := XmlNode.elem "tt" [] [selfBgP]

/-
Timeline interaction engine.  The engine reads only the numeric
`begin`/`end` projections of the parsed lines (§3 of the specification
fixes them as integer milliseconds), so its line view is a record with
exact rational times; React `useState` cells become the fields of
`EngineState` and each handler is a pure state transition.
-/

/-- Numeric view of one line as consumed by the engine. -/
structure TimelineLine where
  begin : ℚ
  «end» : ℚ
deriving DecidableEq, Repr

/-- The engine state: the `useState` cells plus the drag bookkeeping
refs (`didDragRef`, `dragStartRef`). -/
structure EngineState where
  zoom : ℚ
  panOffset : ℚ
  selectedLine : Option ℕ
  scrubPosition : Option ℚ
  isDragging : Bool
  didDrag : Bool
  dragStartX : ℚ
  dragStartOffset : ℚ
deriving DecidableEq, Repr

/-- `totalDuration`: 0 for no lines, else the maximum line end. -/
def totalDuration (lines : List TimelineLine) : ℚ :=
  match lines.map (fun l => l.«end») with
  | [] => 0
  | e :: es => es.foldl max e

/-- `visibleDuration = totalDuration / zoom`. -/
def visibleDuration (lines : List TimelineLine) (st : EngineState) : ℚ :=
  totalDuration lines / st.zoom

/-- `maxPanOffset = max(0, totalDuration - visibleDuration)`. -/
def maxPanOffset (lines : List TimelineLine) (st : EngineState) : ℚ :=
  max 0 (totalDuration lines - visibleDuration lines st)

/-- `timeToPosition`: viewport position percentage of an absolute time. -/
def timeToPosition (lines : List TimelineLine) (st : EngineState) (time : ℚ) : ℚ :=
  ((time - st.panOffset) / visibleDuration lines st) * 100

/-- `Array.prototype.findIndex`, with `none` for the -1 result. -/
def findIndex (pred : TimelineLine → Bool) : List TimelineLine → Option ℕ
  | [] => none
  | x :: rest => if pred x then some 0 else (findIndex pred rest).map (· + 1)

/-- `handleTimelineClick`: ignored while dragging, after a real drag, or
at zero duration; otherwise scrub to the clamped pointer time and select
the first line containing it (selection untouched when none does). -/
def handleTimelineClick (lines : List TimelineLine) (st : EngineState) (frac : ℚ) :
    EngineState :=
  if totalDuration lines = 0 ∨ st.isDragging = true ∨ st.didDrag = true then st
  else
    let time := st.panOffset + frac * visibleDuration lines st
    let clampedTime := max 0 (min (totalDuration lines) time)
    let lineIndex := findIndex
      (fun l => decide (l.begin ≤ clampedTime) && decide (clampedTime ≤ l.«end»)) lines
    { st with
      scrubPosition := some clampedTime
      selectedLine :=
        match lineIndex with
        | some i => some i
        | none => st.selectedLine }

/-- `handleWheel`: pointer-anchored zoom; `deltaYPos` is the sign test
`e.deltaY > 0` (zoom out by 0.8, zoom in by 1.25). -/
def handleWheel (lines : List TimelineLine) (st : EngineState) (frac : ℚ)
    (deltaYPos : Bool) : EngineState :=
  let mouseTime := st.panOffset + frac * visibleDuration lines st
  let zoomDelta : ℚ := if deltaYPos then 8/10 else 5/4
  let newZoom := max 1 (min 20 (st.zoom * zoomDelta))
  let newVisibleDuration := totalDuration lines / newZoom
  let newPanOffset := max 0 (min (totalDuration lines - newVisibleDuration)
    (mouseTime - frac * newVisibleDuration))
  { st with zoom := newZoom, panOffset := newPanOffset }

/-- `handleMouseDown`: no-op unless zoomed in; otherwise start a drag
and record the start position and offset. -/
def handleMouseDown (st : EngineState) (x : ℚ) : EngineState :=
  if st.zoom ≤ 1 then st
  else { st with isDragging := true, didDrag := false,
                 dragStartX := x, dragStartOffset := st.panOffset }

/-- The gridline interval selection. -/
def markerInterval (lines : List TimelineLine) (st : EngineState) : ℚ :=
  if st.zoom ≥ 4 then 10000
  else if st.zoom ≥ 2 then 30000
  else if totalDuration lines ≤ 180000 then 30000
  else 60000

/-- `timeMarkers`: the for loop `i = floor(pan/interval)*interval;
while i <= endTime + interval; i += interval`, keeping `0 <= i <=
totalDuration`.  The iteration count is the number of loop entries. -/
def timeMarkers (lines : List TimelineLine) (st : EngineState) : List ℚ :=
  let interval := markerInterval lines st
  let startTime := (⌊st.panOffset / interval⌋ : ℚ) * interval
  let endTime := st.panOffset + visibleDuration lines st
  let count : ℕ := (⌊(endTime + interval - startTime) / interval⌋ + 1).toNat
  (List.range count).filterMap (fun (k : ℕ) =>
    let i := startTime + (k : ℚ) * interval
    if 0 ≤ i ∧ i ≤ totalDuration lines then some i else none)

/-- The rendered marker positions: each marker time through
`timeToPosition`. -/
def markerPositions (lines : List TimelineLine) (st : EngineState) : List ℚ :=
  (timeMarkers lines st).map (timeToPosition lines st)

/-- Two-line demonstration document, `[0,2000]` and `[2000,5000]`. -/
def demoLines : List TimelineLine := [⟨0, 2000⟩, ⟨2000, 5000⟩]

/-- Fresh engine state at zoom 1. -/
def demoState : EngineState :=
  { zoom := 1, panOffset := 0, selectedLine := none, scrubPosition := none,
    isDragging := false, didDrag := false, dragStartX := 0, dragStartOffset := 0 }

/-- One-line document for the wheel demonstration. -/
def wheelLines : List TimelineLine := [⟨0, 4000⟩]

/-- Zoomed engine state for the wheel demonstration. -/
def wheelState : EngineState :=
  { zoom := 2, panOffset := 1000, selectedLine := none, scrubPosition := none,
    isDragging := false, didDrag := false, dragStartX := 0, dragStartOffset := 0 }

/-- One line ending at 0: nonempty input with `totalDuration = 0`. -/
def zeroLines : List TimelineLine := [⟨0, 0⟩]

/-- Fresh engine state for the degenerate-input claims. -/
def zeroState : EngineState :=
  { zoom := 1, panOffset := 0, selectedLine := none, scrubPosition := none,
    isDragging := false, didDrag := false, dragStartX := 0, dragStartOffset := 0 }

/-- One-line 180s document for the gridline claims. -/
def markerDemoLines : List TimelineLine := [⟨0, 180000⟩]

/-- Engine state at zoom 2, panned to 45s. -/
def markerDemoState : EngineState :=
  { zoom := 2, panOffset := 45000, selectedLine := none, scrubPosition := none,
    isDragging := false, didDrag := false, dragStartX := 0, dragStartOffset := 0 }

/-- C1: parseTime follows the h:m:s / m:s / fractional-seconds split
rule and rounds to integer milliseconds, and in particular maps
"1:02:03.5" to 3723500, "2:03.25" to 123250, "5.5" to 5500 and "" to 0. -/
theorem parseTime_follows_split_rule :
    (∀ s : String, parseTime s = parseTimeRule s) ∧
    parseTime "1:02:03.5" = JsNum.num 3723500 ∧
    parseTime "2:03.25" = JsNum.num 123250 ∧
    parseTime "5.5" = JsNum.num 5500 ∧
    parseTime "" = JsNum.num 0 := by
  refine ⟨fun s => ?_, ?_, ?_, ?_, ?_⟩
  · unfold parseTime parseTimeRule
    by_cases hs : s = ""
    · simp [hs]
    · simp only [hs, if_false]
      rcases h : splitOnChar ':' s.toList with _ | ⟨a, _ | ⟨b, _ | ⟨c, _ | ⟨d, l⟩⟩⟩⟩ <;>
        simp [h]
  all_goals
    simp [parseTime, jsParseInt, jsParseFloat, parseExpSuffix, digitsVal,
      splitOnChar, isJsSpace, List.asString, JsNum.round, JsNum.mul, JsNum.add]
  all_goals norm_num

lemma ancestorHasBg_eq_any (l : List XmlNode) :
    ancestorHasBg l =
      l.any (fun e => decide (getAttribute e "ttm:role" = some "x-bg")) := by
  induction l with
  | nil => rfl
  | cons e rest ih =>
      by_cases h : getAttribute e "ttm:role" = some "x-bg" <;>
        simp [ancestorHasBg, h, ih]

lemma mkWord_mem_wordsIn (ch : List XmlNode) :
    ∀ (i : ℕ) (e : XmlNode) (anc : List XmlNode),
      ch[i]? = some e → isTimedSpan e = true → mkWord anc e ∈ wordsIn anc ch := by
  induction ch with
  | nil => intro i e anc h _; simp at h
  | cons x rest ih =>
      intro i e anc h hspan
      cases i with
      | zero =>
          simp at h
          subst h
          cases x with
          | textNode s => simp [isTimedSpan] at hspan
          | elem tag attrs ch2 => simp [wordsIn, hspan]
      | succ n =>
          have h' : rest[n]? = some e := by simpa using h
          have hmem := ih n e anc h' hspan
          cases x with
          | textNode s => simpa [wordsIn] using hmem
          | elem tag attrs ch2 =>
              simp only [wordsIn, List.mem_append]
              exact Or.inr hmem

lemma wordsIn_child_sub (ch : List XmlNode) :
    ∀ (i : ℕ) (c : XmlNode) (anc : List XmlNode) (w : ParsedWord),
      ch[i]? = some c → w ∈ wordsIn (c :: anc) (childrenOf c) → w ∈ wordsIn anc ch := by
  induction ch with
  | nil => intro i c anc w h _; simp at h
  | cons x rest ih =>
      intro i c anc w h hmem
      cases i with
      | zero =>
          simp at h
          subst h
          cases x with
          | textNode s => simp [childrenOf, wordsIn] at hmem
          | elem tag attrs ch2 =>
              simp only [childrenOf] at hmem
              simp only [wordsIn, List.mem_append]
              exact Or.inl (Or.inr hmem)
      | succ n =>
          have h' : rest[n]? = some c := by simpa using h
          have hmem' := ih n c anc w h' hmem
          cases x with
          | textNode s => simpa [wordsIn] using hmem'
          | elem tag attrs ch2 =>
              simp only [wordsIn, List.mem_append]
              exact Or.inr hmem'

lemma wordsIn_locates :
    ∀ (path : List ℕ) (n spanEl : XmlNode) (anc : List XmlNode),
      nodeAt n path = some spanEl → path ≠ [] → isTimedSpan spanEl = true →
      mkWord ((chainAt n path).reverse ++ anc) spanEl ∈ wordsIn anc (childrenOf n) := by
  intro path
  induction path with
  | nil => intro n spanEl anc _ hne _; exact absurd rfl hne
  | cons i is ih =>
      intro n spanEl anc h _ hspan
      simp only [nodeAt] at h
      cases hc : childAt n i with
      | none => rw [hc] at h; exact absurd h (by simp)
      | some c =>
          rw [hc] at h
          cases is with
          | nil =>
              simp only [nodeAt, Option.some.injEq] at h
              subst h
              simpa [chainAt] using mkWord_mem_wordsIn (childrenOf n) i _ anc hc hspan
          | cons j is2 =>
              have hmem := ih c spanEl (c :: anc) h (by simp) hspan
              have hch : chainAt n (i :: j :: is2) = c :: chainAt c (j :: is2) := by
                simp [chainAt, hc]
              rw [hch, List.reverse_cons, List.append_assoc, List.singleton_append]
              exact wordsIn_child_sub (childrenOf n) i c anc _ hc hmem

/-- C2: the parser never raises; a structural parse failure and a
document with no paragraph elements both yield the empty line list (the
embedding is a total function, so every outcome is a value, never an
exception). -/
theorem parseTTML_degrades_to_empty :
    parseTTML none = [] ∧
    ∀ doc : XmlNode, collectPs doc = [] → parseTTML (some doc) = [] := by
  refine ⟨rfl, fun doc h => ?_⟩
  simp [parseTTML, h]

/-- Witness for C2 at a concrete paragraph-free document. -/
theorem parseTTML_degrades_to_empty_witness :
    parseTTML none = [] ∧ parseTTML (some (XmlNode.elem "tt" [] [])) = [] :=
  ⟨parseTTML_degrades_to_empty.1,
    parseTTML_degrades_to_empty.2 _ (by simp [collectPs, elemsByTag])⟩

/-- C3: the word emitted for a timed span has `isBackground = true`
exactly when some element strictly between the span and its paragraph
carries `ttm:role="x-bg"`; the flag comes from the per-word upward walk
bounded by the paragraph. -/
theorem word_background_iff_marked_ancestor :
    ∀ (doc p spanEl : XmlNode) (path : List ℕ),
      p ∈ collectPs doc → nodeAt p path = some spanEl → path ≠ [] →
      isTimedSpan spanEl = true →
      ∃ l ∈ parseTTML (some doc), l = mkLine (buildTransMap doc) p ∧
        ∃ w ∈ l.words,
          w.text = textContent spanEl ∧
          w.begin = parseTime ((getAttribute spanEl "begin").getD "") ∧
          w.«end» = parseTime ((getAttribute spanEl "end").getD "") ∧
          (w.isBackground = true ↔
            ∃ a ∈ chainAt p path, getAttribute a "ttm:role" = some "x-bg") := by
  intro doc p spanEl path hp hnode hne hspan
  refine ⟨mkLine (buildTransMap doc) p, List.mem_map_of_mem _ hp, rfl, ?_⟩
  have hmem := wordsIn_locates path p spanEl [] hnode hne hspan
  rw [List.append_nil] at hmem
  refine ⟨mkWord ((chainAt p path).reverse) spanEl, hmem, rfl, rfl, rfl, ?_⟩
  show ancestorHasBg ((chainAt p path).reverse) = true ↔ _
  rw [ancestorHasBg_eq_any]
  simp [List.any_eq_true, List.mem_reverse]

/-- C10: a timed span that itself carries `ttm:role="x-bg"` but has no
marked element strictly between it and the paragraph is emitted with the
background flag unset: the upward walk starts at the span's parent and
never inspects the span itself. -/
theorem word_own_marker_not_inspected :
    ∀ (doc p spanEl : XmlNode) (path : List ℕ),
      p ∈ collectPs doc → nodeAt p path = some spanEl → path ≠ [] →
      isTimedSpan spanEl = true →
      getAttribute spanEl "ttm:role" = some "x-bg" →
      (∀ a ∈ chainAt p path, ¬ getAttribute a "ttm:role" = some "x-bg") →
      ∃ l ∈ parseTTML (some doc), l = mkLine (buildTransMap doc) p ∧
        ∃ w ∈ l.words, w.text = textContent spanEl ∧ w.isBackground = false := by
  intro doc p spanEl path hp hnode hne hspan _ hchain
  refine ⟨mkLine (buildTransMap doc) p, List.mem_map_of_mem _ hp, rfl, ?_⟩
  have hmem := wordsIn_locates path p spanEl [] hnode hne hspan
  rw [List.append_nil] at hmem
  refine ⟨mkWord ((chainAt p path).reverse) spanEl, hmem, rfl, ?_⟩
  show ancestorHasBg ((chainAt p path).reverse) = false
  rw [ancestorHasBg_eq_any]
  simp only [List.any_eq_false, List.mem_reverse, decide_eq_true_eq]
  exact hchain

lemma elemsByTag_pair (t : String) (a b : XmlNode) :
    elemsByTag t [a, b] = elemsByTag t [a] ++ elemsByTag t [b] := by
  cases a <;> cases b <;> simp [elemsByTag]

lemma collectTransTexts_pair (fl : Bool) (a b : XmlNode) :
    collectTransTexts fl [a, b] = collectTransTexts fl [a] ++ collectTransTexts fl [b] := by
  cases a <;> cases b <;> simp [collectTransTexts]

/-- C4: a line whose key matches a collected transliteration entry gets
that entry attached, and the parse result is unchanged when the
transliteration container and the paragraph are swapped in the document
(the join table is completed before line assembly). -/
theorem transliteration_key_join :
    (∀ (doc p : XmlNode) (k : String) (e : TransEntry),
        p ∈ collectPs doc → jsAttrOpt p "itunes:key" = some k →
        jsMapGet (buildTransMap doc) k = some e →
        (mkLine (buildTransMap doc) p).transliteration = some e) ∧
    (∀ (rtag : String) (rattrs : List (String × String)) (t pn : XmlNode),
        rtag ≠ "p" →
        elemsByTag "p" [t] = [] →
        collectTransTexts (decide (rtag = "transliteration")) [pn] = [] →
        parseTTML (some (XmlNode.elem rtag rattrs [t, pn])) =
          parseTTML (some (XmlNode.elem rtag rattrs [pn, t]))) := by
  constructor
  · intro doc p k e _ hk hg
    simp [mkLine, hk, hg]
  · intro rtag rattrs t pn hroot ht htr
    have hps : collectPs (XmlNode.elem rtag rattrs [t, pn]) =
        collectPs (XmlNode.elem rtag rattrs [pn, t]) := by
      simp only [collectPs, elemsByTag, elemsByTag_pair, ht]
      simp [hroot]
    have htt : collectTransTexts false [XmlNode.elem rtag rattrs [t, pn]] =
        collectTransTexts false [XmlNode.elem rtag rattrs [pn, t]] := by
      simp only [collectTransTexts, collectTransTexts_pair, Bool.false_or,
        Bool.false_and, htr]
      simp
    simp only [parseTTML, buildTransMap, hps, htt]

/-- Witness for C4: the concrete join attaches the entry and swapping
the container across the line changes nothing. -/
theorem transliteration_key_join_witness :
    parseTTML (some transDemoDoc1) = parseTTML (some transDemoDoc2) ∧
    (mkLine (buildTransMap transDemoDoc1) transDemoP).transliteration =
      some ⟨"ho-la", []⟩ := by
  constructor
  · exact transliteration_key_join.2 "tt" [] transDemoT transDemoP
      (by simp)
      (by simp [transDemoT, elemsByTag])
      (by simp [transDemoP, collectTransTexts])
  · exact transliteration_key_join.1 transDemoDoc1 transDemoP "L1" ⟨"ho-la", []⟩
      (by simp [transDemoDoc1, transDemoT, transDemoP, collectPs, elemsByTag])
      (by simp [transDemoP, jsAttrOpt, getAttribute])
      (by simp [transDemoDoc1, transDemoT, transDemoP, buildTransMap,
        collectTransTexts, getAttribute, jsMapSet, jsMapGet, transWords,
        timedSpans, childrenOf, textContent, textContent.textContentL])

/-- Counterexample for C7: a present but unparseable timing value does
not degrade to 0 — the emitted line carries NaN. -/
theorem invalid_timing_attr_counterexample :
    (parseTTML (some invalidTimeDoc)).map ParsedLine.begin = [JsNum.nan] ∧
    JsNum.nan ≠ JsNum.num 0 := by
  constructor
  · simp [invalidTimeDoc, parseTTML, collectPs, elemsByTag, buildTransMap,
      collectTransTexts, mkLine, getAttribute, jsAttrOpt, childrenOf, wordsIn,
      collectTexts, textContent, textContent.textContentL, jsMapGet, parseTime,
      splitOnChar, jsParseFloat, jsParseInt, parseExpSuffix, digitsVal,
      isJsSpace, List.asString, JsNum.mul, JsNum.round]
  · simp

/-- C7 (amended): a missing `begin`/`end` attribute is read as the empty
string and degrades to time 0, for paragraphs and word spans alike, and
`parseTime ""` is 0; a present but unparseable value instead yields NaN
(see the counterexample). -/
theorem missing_timing_attr_gives_zero :
    ∀ (tMap : List (String × TransEntry)) (p e : XmlNode) (anc : List XmlNode),
      (getAttribute p "begin" = none → (mkLine tMap p).begin = JsNum.num 0) ∧
      (getAttribute p "end" = none → (mkLine tMap p).«end» = JsNum.num 0) ∧
      (getAttribute e "end" = none → (mkWord anc e).«end» = JsNum.num 0) ∧
      parseTime "" = JsNum.num 0 := by
  intro tMap p e anc
  refine ⟨fun h => ?_, fun h => ?_, fun h => ?_, by simp [parseTime]⟩
  · simp [mkLine, h, parseTime]
  · simp [mkLine, h, parseTime]
  · simp [mkWord, h, parseTime]

/-- Witness for C7's amended theorem at a concrete attribute-free
paragraph and a span with no `end` attribute. -/
theorem missing_timing_attr_gives_zero_witness :
    (mkLine [] (XmlNode.elem "p" [] [])).begin = JsNum.num 0 ∧
    (mkLine [] (XmlNode.elem "p" [] [])).«end» = JsNum.num 0 ∧
    (mkWord [] (XmlNode.elem "span" [("begin", "1")] [])).«end» = JsNum.num 0 ∧
    parseTime "" = JsNum.num 0 := by
  have h := missing_timing_attr_gives_zero [] (XmlNode.elem "p" [] [])
    (XmlNode.elem "span" [("begin", "1")] []) []
  exact ⟨h.1 (by simp [getAttribute]), h.2.1 (by simp [getAttribute]),
    h.2.2.1 (by simp [getAttribute]), h.2.2.2⟩

/-- Witness for C3 at the nested span reached by path `[0, 0]`. -/
theorem word_background_iff_marked_ancestor_witness :
    ∃ l ∈ parseTTML (some bgDemoDoc), l = mkLine (buildTransMap bgDemoDoc) bgDemoP ∧
      ∃ w ∈ l.words,
        w.text = textContent bgDemoSpan ∧
        w.begin = parseTime ((getAttribute bgDemoSpan "begin").getD "") ∧
        w.«end» = parseTime ((getAttribute bgDemoSpan "end").getD "") ∧
        (w.isBackground = true ↔
          ∃ a ∈ chainAt bgDemoP [0, 0], getAttribute a "ttm:role" = some "x-bg") :=
  word_background_iff_marked_ancestor bgDemoDoc bgDemoP bgDemoSpan [0, 0]
    (by simp [bgDemoDoc, bgDemoP, bgDemoSpan, collectPs, elemsByTag])
    (by rfl) (by simp) (by rfl)

/-- Witness for C10: the self-marked span at path `[0]` has no marked
strict ancestor and its word comes out with the flag unset. -/
theorem word_own_marker_not_inspected_witness :
    ∃ l ∈ parseTTML (some selfBgDoc), l = mkLine (buildTransMap selfBgDoc) selfBgP ∧
      ∃ w ∈ l.words, w.text = textContent selfBgSpan ∧ w.isBackground = false :=
  word_own_marker_not_inspected selfBgDoc selfBgP selfBgSpan [0]
    (by simp [selfBgDoc, selfBgP, selfBgSpan, collectPs, elemsByTag])
    (by rfl) (by simp) (by rfl) (by rfl)
    (by simp [chainAt])

lemma findIndex_eq_some_of_first (pred : TimelineLine → Bool) :
    ∀ (l : List TimelineLine) (i : ℕ) (x : TimelineLine),
      l[i]? = some x → pred x = true →
      (∀ (j : ℕ) (y : TimelineLine), j < i → l[j]? = some y → pred y = false) →
      findIndex pred l = some i := by
  intro l
  induction l with
  | nil => intro i x h _ _; simp at h
  | cons a rest ih =>
      intro i x h hx hfirst
      cases i with
      | zero =>
          simp at h
          subst h
          simp [findIndex, hx]
      | succ n =>
          have ha : pred a = false := hfirst 0 a (Nat.succ_pos n) (by simp)
          have h' : rest[n]? = some x := by simpa using h
          have hfirst' : ∀ (j : ℕ) (y : TimelineLine), j < n → rest[j]? = some y →
              pred y = false := by
            intro j y hj hy
            exact hfirst (j + 1) y (Nat.succ_lt_succ hj) (by simpa using hy)
          simp [findIndex, ha, ih n x h' hx hfirst']

lemma findIndex_eq_none_of_all (pred : TimelineLine → Bool) :
    ∀ l : List TimelineLine, (∀ x ∈ l, pred x = false) → findIndex pred l = none := by
  intro l
  induction l with
  | nil => intro _; rfl
  | cons a rest ih =>
      intro h
      simp [findIndex, h a (by simp), ih (fun x hx => h x (by simp [hx]))]

lemma handleTimelineClick_eq (lines : List TimelineLine) (st : EngineState) (frac : ℚ)
    (h : ¬(totalDuration lines = 0 ∨ st.isDragging = true ∨ st.didDrag = true)) :
    handleTimelineClick lines st frac =
      { st with
        scrubPosition := some (max 0 (min (totalDuration lines)
          (st.panOffset + frac * visibleDuration lines st)))
        selectedLine :=
          match findIndex (fun l =>
              decide (l.begin ≤ max 0 (min (totalDuration lines)
                (st.panOffset + frac * visibleDuration lines st))) &&
              decide (max 0 (min (totalDuration lines)
                (st.panOffset + frac * visibleDuration lines st)) ≤ l.«end»)) lines with
          | some i => some i
          | none => st.selectedLine } := by
  unfold handleTimelineClick
  rw [if_neg h]

/-- C5: with positive duration and no drag in progress, a click scrubs
to the clamped pointer time and selects the first line in document
order whose interval contains it, leaving the selection alone when no
line does; the click is swallowed while dragging, after a real drag, or
at zero duration. -/
theorem handleTimelineClick_selects_first_containing :
    ∀ (lines : List TimelineLine) (st : EngineState) (frac : ℚ),
      (totalDuration lines ≠ 0 → st.isDragging = false → st.didDrag = false →
        (handleTimelineClick lines st frac).scrubPosition =
          some (max 0 (min (totalDuration lines)
            (st.panOffset + frac * visibleDuration lines st))) ∧
        (∀ (i : ℕ) (l : TimelineLine), lines[i]? = some l →
          (l.begin ≤ max 0 (min (totalDuration lines)
              (st.panOffset + frac * visibleDuration lines st)) ∧
           max 0 (min (totalDuration lines)
              (st.panOffset + frac * visibleDuration lines st)) ≤ l.«end») →
          (∀ (j : ℕ) (l2 : TimelineLine), j < i → lines[j]? = some l2 →
            ¬(l2.begin ≤ max 0 (min (totalDuration lines)
                (st.panOffset + frac * visibleDuration lines st)) ∧
              max 0 (min (totalDuration lines)
                (st.panOffset + frac * visibleDuration lines st)) ≤ l2.«end»)) →
          (handleTimelineClick lines st frac).selectedLine = some i) ∧
        ((∀ l ∈ lines,
            ¬(l.begin ≤ max 0 (min (totalDuration lines)
                (st.panOffset + frac * visibleDuration lines st)) ∧
              max 0 (min (totalDuration lines)
                (st.panOffset + frac * visibleDuration lines st)) ≤ l.«end»)) →
          (handleTimelineClick lines st frac).selectedLine = st.selectedLine) ∧
        (handleTimelineClick lines st frac).zoom = st.zoom ∧
        (handleTimelineClick lines st frac).panOffset = st.panOffset ∧
        (handleTimelineClick lines st frac).isDragging = st.isDragging) ∧
      (st.isDragging = true → handleTimelineClick lines st frac = st) ∧
      (st.didDrag = true → handleTimelineClick lines st frac = st) ∧
      (totalDuration lines = 0 → handleTimelineClick lines st frac = st) := by
  intro lines st frac
  refine ⟨fun htd hdrag hdid => ?_, fun h => ?_, fun h => ?_, fun h => ?_⟩
  · have hcond : ¬(totalDuration lines = 0 ∨ st.isDragging = true ∨ st.didDrag = true) := by
      simp [htd, hdrag, hdid]
    rw [handleTimelineClick_eq lines st frac hcond]
    refine ⟨rfl, fun i l hl hcont hfirst => ?_, fun hnone => ?_, rfl, rfl, rfl⟩
    · have hidx := findIndex_eq_some_of_first
        (fun l2 => decide (l2.begin ≤ max 0 (min (totalDuration lines)
          (st.panOffset + frac * visibleDuration lines st))) &&
          decide (max 0 (min (totalDuration lines)
            (st.panOffset + frac * visibleDuration lines st)) ≤ l2.«end»))
        lines i l hl
        (by simp [hcont.1, hcont.2])
        (by
          intro j y hj hy
          have := hfirst j y hj hy
          by_cases h1 : y.begin ≤ max 0 (min (totalDuration lines)
              (st.panOffset + frac * visibleDuration lines st)) <;>
            by_cases h2 : max 0 (min (totalDuration lines)
              (st.panOffset + frac * visibleDuration lines st)) ≤ y.«end» <;>
            simp [h1, h2] at this ⊢)
      simp only [hidx]
    · have hidx := findIndex_eq_none_of_all
        (fun l2 => decide (l2.begin ≤ max 0 (min (totalDuration lines)
          (st.panOffset + frac * visibleDuration lines st))) &&
          decide (max 0 (min (totalDuration lines)
            (st.panOffset + frac * visibleDuration lines st)) ≤ l2.«end»)) lines
        (by
          intro x hx
          have := hnone x hx
          by_cases h1 : x.begin ≤ max 0 (min (totalDuration lines)
              (st.panOffset + frac * visibleDuration lines st)) <;>
            by_cases h2 : max 0 (min (totalDuration lines)
              (st.panOffset + frac * visibleDuration lines st)) ≤ x.«end» <;>
            simp [h1, h2] at this ⊢)
      simp only [hidx]
  · simp [handleTimelineClick, h]
  · simp [handleTimelineClick, h]
  · simp [handleTimelineClick, h]

/-- Witness for C5: clicking the two-line demo at pointer fraction 50%
scrubs to 2500 and selects line index 1. -/
theorem handleTimelineClick_witness :
    (handleTimelineClick demoLines demoState (1/2)).scrubPosition = some 2500 ∧
    (handleTimelineClick demoLines demoState (1/2)).selectedLine = some 1 := by
  have htd : totalDuration demoLines = 5000 := by
    simp [totalDuration, demoLines]
    norm_num [max_def]
  have hclamp : max 0 (min (totalDuration demoLines)
      (demoState.panOffset + (1/2) * visibleDuration demoLines demoState)) = 2500 := by
    rw [htd]
    norm_num [visibleDuration, htd, demoState, max_def, min_def]
  have h := (handleTimelineClick_selects_first_containing demoLines demoState (1/2)).1
    (by rw [htd]; norm_num) rfl rfl
  refine ⟨?_, ?_⟩
  · rw [h.1, hclamp]
  · refine h.2.1 1 ⟨2000, 5000⟩ (by simp [demoLines]) ?_ ?_
    · rw [hclamp]; norm_num
    · intro j l2 hj hl2
      interval_cases j
      simp [demoLines] at hl2
      rw [hclamp, ← hl2]
      norm_num

lemma handleWheel_eq (lines : List TimelineLine) (st : EngineState) (frac : ℚ)
    (deltaYPos : Bool) :
    handleWheel lines st frac deltaYPos =
      { st with
        zoom := max 1 (min 20 (st.zoom * (if deltaYPos then 8/10 else 5/4)))
        panOffset := max 0 (min
          (totalDuration lines -
            totalDuration lines / max 1 (min 20 (st.zoom * (if deltaYPos then 8/10 else 5/4))))
          ((st.panOffset + frac * visibleDuration lines st) -
            frac * (totalDuration lines /
              max 1 (min 20 (st.zoom * (if deltaYPos then 8/10 else 5/4)))))) } := rfl

/-- C6: the wheel multiplies zoom by 0.8 or 1.25 and clamps it to
[1, 20]; the new pan offset is the pointer-anchored value clamped to
[0, totalDuration - newVisibleDuration], so whenever that clamp is
inactive the absolute time under the pointer is unchanged. -/
theorem handleWheel_pointer_anchored :
    ∀ (lines : List TimelineLine) (st : EngineState) (frac : ℚ) (deltaYPos : Bool),
      totalDuration lines > 0 →
      (handleWheel lines st frac deltaYPos).zoom =
        max 1 (min 20 (st.zoom * (if deltaYPos then 8/10 else 5/4))) ∧
      1 ≤ (handleWheel lines st frac deltaYPos).zoom ∧
      (handleWheel lines st frac deltaYPos).zoom ≤ 20 ∧
      0 ≤ (handleWheel lines st frac deltaYPos).panOffset ∧
      (handleWheel lines st frac deltaYPos).panOffset ≤
        totalDuration lines -
          totalDuration lines / (handleWheel lines st frac deltaYPos).zoom ∧
      (0 ≤ (st.panOffset + frac * visibleDuration lines st) -
          frac * (totalDuration lines / (handleWheel lines st frac deltaYPos).zoom) →
        (st.panOffset + frac * visibleDuration lines st) -
          frac * (totalDuration lines / (handleWheel lines st frac deltaYPos).zoom) ≤
          totalDuration lines -
            totalDuration lines / (handleWheel lines st frac deltaYPos).zoom →
        (handleWheel lines st frac deltaYPos).panOffset +
          frac * (totalDuration lines / (handleWheel lines st frac deltaYPos).zoom) =
          st.panOffset + frac * visibleDuration lines st) ∧
      (handleWheel lines st frac deltaYPos).selectedLine = st.selectedLine ∧
      (handleWheel lines st frac deltaYPos).scrubPosition = st.scrubPosition ∧
      (handleWheel lines st frac deltaYPos).isDragging = st.isDragging := by
  intro lines st frac deltaYPos htd
  rw [handleWheel_eq]
  have hz1 : (1 : ℚ) ≤ max 1 (min 20 (st.zoom * (if deltaYPos then 8/10 else 5/4))) :=
    le_max_left 1 _
  have hz20 : max 1 (min 20 (st.zoom * (if deltaYPos then 8/10 else 5/4))) ≤ 20 :=
    max_le (by norm_num) (min_le_left 20 _)
  have hA : (0 : ℚ) ≤ totalDuration lines -
      totalDuration lines / max 1 (min 20 (st.zoom * (if deltaYPos then 8/10 else 5/4))) := by
    have := div_le_self (le_of_lt htd) hz1
    linarith
  refine ⟨rfl, hz1, hz20, le_max_left 0 _, max_le hA (min_le_left _ _), ?_, rfl, rfl, rfl⟩
  intro hlo hhi
  rw [min_eq_right hhi, max_eq_right hlo]
  ring

/-- Witness for C6: zooming in at pointer fraction 1/2 from zoom 2 gives
zoom 5/2 and keeps the time under the pointer fixed. -/
theorem handleWheel_pointer_anchored_witness :
    (handleWheel wheelLines wheelState (1/2) false).zoom = 5/2 ∧
    (handleWheel wheelLines wheelState (1/2) false).panOffset +
      (1/2) * (totalDuration wheelLines /
        (handleWheel wheelLines wheelState (1/2) false).zoom) =
      wheelState.panOffset + (1/2) * visibleDuration wheelLines wheelState := by
  have htd : totalDuration wheelLines = 4000 := by simp [totalDuration, wheelLines]
  have h := handleWheel_pointer_anchored wheelLines wheelState (1/2) false
    (by rw [htd]; norm_num)
  have hz : (handleWheel wheelLines wheelState (1/2) false).zoom = 5/2 := by
    rw [h.1]
    norm_num [wheelState, max_def, min_def]
  refine ⟨hz, h.2.2.2.2.2.1 ?_ ?_⟩
  · rw [htd, hz]
    norm_num [wheelState, visibleDuration, htd]
  · rw [htd, hz]
    norm_num [wheelState, visibleDuration, htd]

/-- Counterexample for C8: at `totalDuration = 0` the wheel handler is
not a no-op — it still multiplies and clamps the zoom (1 becomes 1.25),
because the source has no zero-duration guard on wheel. -/
theorem wheel_not_noop_at_zero_duration :
    totalDuration zeroLines = 0 ∧
    (handleWheel zeroLines zeroState 0 false).zoom ≠ zeroState.zoom := by
  constructor
  · simp [totalDuration, zeroLines]
  · rw [handleWheel_eq]
    norm_num [zeroState, max_def, min_def]

/-- C8 (amended): at zero duration the click is a genuine no-op; the
mouse-down is a no-op exactly when `zoom ≤ 1` (its guard, regardless of
duration); the wheel at zero duration and pan 0 leaves every field but
the zoom unchanged, yet still rescales the zoom. -/
theorem degenerate_input_behavior :
    ∀ (lines : List TimelineLine) (st : EngineState) (frac x : ℚ) (d : Bool),
      (totalDuration lines = 0 → handleTimelineClick lines st frac = st) ∧
      (st.zoom ≤ 1 → handleMouseDown st x = st) ∧
      (totalDuration lines = 0 → st.panOffset = 0 →
        handleWheel lines st frac d =
          { st with zoom := max 1 (min 20 (st.zoom * (if d then 8/10 else 5/4))) }) := by
  intro lines st frac x d
  refine ⟨fun h => ?_, fun h => ?_, fun h hpan => ?_⟩
  · simp [handleTimelineClick, h]
  · simp [handleMouseDown, h]
  · rw [handleWheel_eq]
    simp [h, hpan, visibleDuration]

/-- Witness for C8's amended theorem at the concrete degenerate inputs. -/
theorem degenerate_input_behavior_witness :
    handleTimelineClick zeroLines zeroState 0 = zeroState ∧
    handleMouseDown zeroState 5 = zeroState ∧
    handleWheel zeroLines zeroState 0 false =
      { zeroState with zoom := max 1 (min 20 (zeroState.zoom * (5/4))) } := by
  have h := degenerate_input_behavior zeroLines zeroState 0 5 false
  refine ⟨h.1 (by simp [totalDuration, zeroLines]),
    h.2.1 (by norm_num [zeroState]), ?_⟩
  have := h.2.2 (by simp [totalDuration, zeroLines]) rfl
  simpa using this

lemma loopMarkers_mem (pan vd td x I : ℚ) (hI : 0 < I) :
    x ∈ (List.range ((⌊(pan + vd + I - (⌊pan / I⌋ : ℚ) * I) / I⌋ + 1).toNat)).filterMap
        (fun (k : ℕ) => if 0 ≤ (⌊pan / I⌋ : ℚ) * I + (k : ℚ) * I ∧
            (⌊pan / I⌋ : ℚ) * I + (k : ℚ) * I ≤ td
          then some ((⌊pan / I⌋ : ℚ) * I + (k : ℚ) * I) else none) ↔
      ((∃ m : ℤ, x = (m : ℚ) * I ∧ ⌊pan / I⌋ ≤ m) ∧
        x ≤ pan + vd + I ∧ 0 ≤ x ∧ x ≤ td) := by
  constructor
  · intro hx
    rw [List.mem_filterMap] at hx
    obtain ⟨k, hk, hf⟩ := hx
    rw [List.mem_range] at hk
    by_cases hcond : 0 ≤ (⌊pan / I⌋ : ℚ) * I + (k : ℚ) * I ∧
        (⌊pan / I⌋ : ℚ) * I + (k : ℚ) * I ≤ td
    · rw [if_pos hcond, Option.some.injEq] at hf
      subst hf
      have hkle : (k : ℤ) ≤ ⌊(pan + vd + I - (⌊pan / I⌋ : ℚ) * I) / I⌋ := by
        have := Int.lt_toNat.mp hk
        omega
      have hkq : (k : ℚ) ≤ (pan + vd + I - (⌊pan / I⌋ : ℚ) * I) / I := by
        exact_mod_cast Int.le_floor.mp hkle
      have hkI : (k : ℚ) * I ≤ pan + vd + I - (⌊pan / I⌋ : ℚ) * I :=
        (le_div_iff₀ hI).mp hkq
      exact ⟨⟨⌊pan / I⌋ + k, by push_cast; ring, by omega⟩, by linarith,
        hcond.1, hcond.2⟩
    · rw [if_neg hcond] at hf
      exact absurd hf (by simp)
  · rintro ⟨⟨m, hxm, hm⟩, hhi, h0, htd'⟩
    rw [List.mem_filterMap]
    have hk0 : ((m - ⌊pan / I⌋).toNat : ℚ) = (m : ℚ) - (⌊pan / I⌋ : ℚ) := by
      have h := Int.toNat_of_nonneg (show (0 : ℤ) ≤ m - ⌊pan / I⌋ by omega)
      exact_mod_cast congrArg (fun z : ℤ => (z : ℚ)) h
    have hx' : (⌊pan / I⌋ : ℚ) * I + (((m - ⌊pan / I⌋).toNat : ℕ) : ℚ) * I = x := by
      rw [hk0, hxm]; ring
    refine ⟨(m - ⌊pan / I⌋).toNat, ?_, ?_⟩
    · rw [List.mem_range, Int.lt_toNat]
      rw [Int.toNat_of_nonneg (show (0 : ℤ) ≤ m - ⌊pan / I⌋ by omega)]
      have hq : ((m - ⌊pan / I⌋ : ℤ) : ℚ) ≤ (pan + vd + I - (⌊pan / I⌋ : ℚ) * I) / I := by
        rw [le_div_iff₀ hI]
        push_cast
        have hmx : (m : ℚ) * I = x := hxm.symm
        nlinarith [hmx]
      have := Int.le_floor.mpr hq
      omega
    · rw [hx', if_pos ⟨h0, htd'⟩]

/-- C9 (amended): the interval rule is 10s when zoom is at least 4, else
30s when zoom is at least 2, else 30s when the document is at most 180s,
else 60s; the emitted markers are exactly the multiples of the interval
from the interval-aligned value at or below panOffset (which may lie
strictly before panOffset) through one interval past the visible window
end, clipped to [0, totalDuration]; the rendered positions map every
marker through timeToPosition. -/
theorem timeMarkers_interval_and_membership :
    ∀ (lines : List TimelineLine) (st : EngineState) (x : ℚ),
      0 < markerInterval lines st ∧
      markerInterval lines st =
        (if st.zoom ≥ 4 then 10000 else if st.zoom ≥ 2 then 30000
         else if totalDuration lines ≤ 180000 then 30000 else 60000) ∧
      (x ∈ timeMarkers lines st ↔
        ((∃ m : ℤ, x = (m : ℚ) * markerInterval lines st ∧
            ⌊st.panOffset / markerInterval lines st⌋ ≤ m) ∧
          x ≤ st.panOffset + visibleDuration lines st + markerInterval lines st ∧
          0 ≤ x ∧ x ≤ totalDuration lines)) ∧
      markerPositions lines st = (timeMarkers lines st).map (timeToPosition lines st) := by
  intro lines st x
  have hIpos : 0 < markerInterval lines st := by
    unfold markerInterval
    split_ifs <;> norm_num
  refine ⟨hIpos, rfl, ?_, rfl⟩
  have hm : timeMarkers lines st =
      (List.range ((⌊(st.panOffset + visibleDuration lines st + markerInterval lines st -
          (⌊st.panOffset / markerInterval lines st⌋ : ℚ) * markerInterval lines st) /
          markerInterval lines st⌋ + 1).toNat)).filterMap
        (fun (k : ℕ) =>
          if 0 ≤ (⌊st.panOffset / markerInterval lines st⌋ : ℚ) * markerInterval lines st +
                (k : ℚ) * markerInterval lines st ∧
              (⌊st.panOffset / markerInterval lines st⌋ : ℚ) * markerInterval lines st +
                (k : ℚ) * markerInterval lines st ≤ totalDuration lines
          then some ((⌊st.panOffset / markerInterval lines st⌋ : ℚ) * markerInterval lines st +
            (k : ℚ) * markerInterval lines st)
          else none) := by
    simp only [timeMarkers]
  rw [hm]
  exact loopMarkers_mem st.panOffset (visibleDuration lines st) (totalDuration lines) x
    (markerInterval lines st) hIpos

lemma markerDemo_td : totalDuration markerDemoLines = 180000 := by
  simp [totalDuration, markerDemoLines]

lemma markerDemo_interval : markerInterval markerDemoLines markerDemoState = 30000 := by
  norm_num [markerInterval, markerDemoState, markerDemo_td]

lemma markerDemo_vd : visibleDuration markerDemoLines markerDemoState = 90000 := by
  norm_num [visibleDuration, markerDemo_td, markerDemoState]

lemma timeMarkers_as_loop (lines : List TimelineLine) (st : EngineState) :
    timeMarkers lines st =
      (List.range ((⌊(st.panOffset + visibleDuration lines st + markerInterval lines st -
          (⌊st.panOffset / markerInterval lines st⌋ : ℚ) * markerInterval lines st) /
          markerInterval lines st⌋ + 1).toNat)).filterMap
        (fun (k : ℕ) =>
          if 0 ≤ (⌊st.panOffset / markerInterval lines st⌋ : ℚ) * markerInterval lines st +
                (k : ℚ) * markerInterval lines st ∧
              (⌊st.panOffset / markerInterval lines st⌋ : ℚ) * markerInterval lines st +
                (k : ℚ) * markerInterval lines st ≤ totalDuration lines
          then some ((⌊st.panOffset / markerInterval lines st⌋ : ℚ) * markerInterval lines st +
            (k : ℚ) * markerInterval lines st)
          else none) := by
  simp only [timeMarkers]

/-- Counterexample for C9: at panOffset 45000 with interval 30000 the
loop starts at the aligned value 30000, so the marker 30000 is emitted
although it lies strictly before panOffset — it is neither a multiple
within the visible window nor the trailing marker past its end. -/
theorem timeMarkers_leading_marker_counterexample :
    (30000 : ℚ) ∈ timeMarkers markerDemoLines markerDemoState ∧
    ¬(markerDemoState.panOffset ≤ (30000 : ℚ)) := by
  constructor
  · rw [timeMarkers_as_loop,
      loopMarkers_mem _ _ _ _ _ (by rw [markerDemo_interval]; norm_num)]
    refine ⟨⟨1, ?_, ?_⟩, ?_, by norm_num, ?_⟩
    · rw [markerDemo_interval]; norm_num
    · rw [markerDemo_interval]
      norm_num [markerDemoState]
    · rw [markerDemo_interval, markerDemo_vd]
      norm_num [markerDemoState]
    · rw [markerDemo_td]; norm_num
  · norm_num [markerDemoState]

/-- Witness for C9's amended theorem: the marker 60000 is in the demo
marker list, obtained through the membership characterization. -/
theorem timeMarkers_interval_and_membership_witness :
    (60000 : ℚ) ∈ timeMarkers markerDemoLines markerDemoState := by
  have h := (timeMarkers_interval_and_membership markerDemoLines markerDemoState 60000).2.2.1
  refine h.mpr ⟨⟨2, ?_, ?_⟩, ?_, by norm_num, ?_⟩
  · rw [markerDemo_interval]; norm_num
  · rw [markerDemo_interval]
    norm_num [markerDemoState]
  · rw [markerDemo_interval, markerDemo_vd]
    norm_num [markerDemoState]
  · rw [markerDemo_td]; norm_num
